import Mathlib

/-!
# Verification of `add_xfm_intent.py` (ants2fsl-converter)

Shallow embedding of the intent-patcher CLI script
`src/utils/add_xfm_intent.py`.  The script parses `-i` (required input
path) and `-o` (output path, default `out.nii.gz`), loads the NIfTI
volume at the input path, sets its header intent code to `2006`
(the FSL displacement-field constant), and saves the result to the
output path.

The NIfTI parsing/serialization is performed by the external `fslpy`
library, which the spec treats as a compliant external capability.  We
model a NIfTI-1 file at the byte level: a file is a list of byte
values, a valid volume file has a 348-byte header whose first four
bytes encode the header size 348 (little-endian) and whose intent-code
field is the little-endian 16-bit quantity at byte offsets 68 and 69;
everything from byte 348 on is the voxel data payload.  The filesystem
is an association list from path strings to byte lists, and output
writability is an explicit predicate on paths.
-/

set_option maxRecDepth 100000

/-- A filesystem: an association list from paths to file contents
(byte lists).  Earlier entries shadow later ones. -/
abbrev FS := List (String × List Nat)

/-- Read the file at path `p`, if present. -/
def getFile : FS → String → Option (List Nat)
  | [], _ => none
  | (q, c) :: rest, p => if q = p then some c else getFile rest p

/-- Create or overwrite the file at path `p` with contents `c`. -/
def setFile : FS → String → List Nat → FS
  | [], p, c => [(p, c)]
  | (q, d) :: rest, p, c =>
      if q = p then (q, c) :: rest else (q, d) :: setFile rest p c

/-- In-memory image, as produced by `fslimage.Image`: the header bytes
before the intent-code field, the intent code itself, the header bytes
after it, and the voxel data payload bytes. -/
structure NiftiFile where
  headerPre : List Nat
  intentCode : Nat
  headerPost : List Nat
  payload : List Nat
deriving Repr, DecidableEq

/-- Little-endian encoding of a 16-bit value as two bytes. -/
def encode16 (v : Nat) : List Nat := [v % 256, v / 256 % 256]

/-- Little-endian decoding of two bytes into a 16-bit value. -/
def decode16 : List Nat → Nat
  | [b0, b1] => b0 + 256 * b1
  | _ => 0

/-- Serialize an image back to file bytes, as `img.save` does:
pre-intent header bytes, the intent code as a little-endian 16-bit
field, the post-intent header bytes, then the payload. -/
def serialize (f : NiftiFile) : List Nat :=
  f.headerPre ++ encode16 f.intentCode ++ f.headerPost ++ f.payload

/-- Modelled from the spec: the external library's NIfTI-1 reader
(`fslimage.Image` on raw bytes).  A valid volume file has at least the
348 header bytes, its first four bytes encode the header size 348
little-endian, and every list element is a byte value.  The intent
code sits at byte offsets 68-69 (little-endian 16-bit). -/
def parseNifti (bs : List Nat) : Option NiftiFile :=
  if 348 ≤ bs.length ∧ bs.take 4 = [92, 1, 0, 0] ∧ ∀ b ∈ bs, b < 256 then
    some { headerPre := bs.take 68
           intentCode := decode16 ((bs.drop 68).take 2)
           headerPost := (bs.drop 70).take 278
           payload := bs.drop 348 }
  else none

/-- `fslimage.Image(path)`: read the file at `path` and parse it;
`none` models the Python exception (missing, unreadable or invalid
input file). -/
def loadImage (fs : FS) (p : String) : Option NiftiFile :=
  (getFile fs p).bind parseNifti

/-- `img.intent = v`: the intent code is stored as a 16-bit header
field. -/
def setIntent (f : NiftiFile) (v : Nat) : NiftiFile :=
  { f with intentCode := v % 65536 }

/-- `img.save(path)`: serialize and write to `path` when the path is
writable; `none` models the Python exception on an unwritable output
path. -/
def saveImage (w : String → Bool) (fs : FS) (p : String) (f : NiftiFile) :
    Option FS :=
  if w p then some (setFile fs p (serialize f)) else none

/-- The parsed command-line arguments. -/
structure Args where
  i : String
  o : String
deriving Repr, DecidableEq

/-- Scan the argument list, accumulating the last values given for
`-i` and `-o`; `none` on any token that is not a recognised
option/value pair (argparse rejects unknown arguments). -/
def scanArgs : List String → Option String → Option String →
    Option (Option String × Option String)
  | [], i, o => some (i, o)
  | [_], _, _ => none
  | a :: v :: rest, i, o =>
    if a = "-i" then scanArgs rest (some v) o
    else if a = "-o" then scanArgs rest i (some v)
    else none

/-- `get_arguments()`: `-i` is required, `-o` defaults to
`out.nii.gz`; `none` models argparse exiting with an error. -/
def getArguments (argv : List String) : Option Args :=
  match scanArgs argv none none with
  | some (some i, o) => some { i := i, o := o.getD "out.nii.gz" }
  | _ => none

/-- The whole script run: parse arguments, load the input image, set
its intent code to 2006, save to the output path.  Returns the
process exit code (argparse failure exits 2, an uncaught Python
exception exits 1, success exits 0) and the resulting filesystem. -/
def run (w : String → Bool) (argv : List String) (fs : FS) : Nat × FS :=
  match getArguments argv with
  | none => (2, fs)
  | some args =>
    match loadImage fs args.i with
    | none => (1, fs)
    | some img =>
      match saveImage w fs args.o (setIntent img 2006) with
      | none => (1, fs)
      | some fs2 => (0, fs2)

/-! ## Basic lemmas about the byte-level NIfTI model -/

/-- Well-formedness of an in-memory image: the header fields have the
NIfTI-1 sizes, the magic bytes are present, all stored values are
bytes, and the intent code fits in 16 bits. -/
def WF (f : NiftiFile) : Prop :=
  f.headerPre.length = 68 ∧ f.headerPre.take 4 = [92, 1, 0, 0] ∧
  (∀ b ∈ f.headerPre, b < 256) ∧ f.headerPost.length = 278 ∧
  (∀ b ∈ f.headerPost, b < 256) ∧ (∀ b ∈ f.payload, b < 256) ∧
  f.intentCode < 65536

theorem encode16_length (v : Nat) : (encode16 v).length = 2 := rfl

theorem encode16_lt (v : Nat) : ∀ b ∈ encode16 v, b < 256 := by
  intro b hb
  simp only [encode16, List.mem_cons, List.mem_singleton, List.not_mem_nil,
    or_false] at hb
  rcases hb with h | h <;> subst h <;> exact Nat.mod_lt _ (by norm_num)

theorem decode16_encode16 (v : Nat) (h : v < 65536) :
    decode16 (encode16 v) = v := by
  simp only [decode16, encode16]
  omega

theorem decode16_lt (l : List Nat) (h : ∀ b ∈ l, b < 256) :
    decode16 l < 65536 := by
  match l with
  | [] => simp [decode16]
  | [a] => simp [decode16]
  | [a, b] =>
    have ha := h a (by simp)
    have hb := h b (by simp)
    simp only [decode16]
    omega
  | a :: b :: c :: rest => simp [decode16]

theorem parseNifti_length (bs : List Nat) (f : NiftiFile)
    (h : parseNifti bs = some f) : 348 ≤ bs.length := by
  unfold parseNifti at h
  split at h
  · next hc => exact hc.1
  · exact absurd h (by simp)

theorem parseNifti_wf (bs : List Nat) (f : NiftiFile)
    (h : parseNifti bs = some f) : WF f := by
  unfold parseNifti at h
  split at h
  · next hc =>
    obtain ⟨hl, hm, hb⟩ := hc
    cases h
    refine ⟨?_, ?_, ?_, ?_, ?_, ?_, ?_⟩
    · simp only [List.length_take]
      omega
    · show (bs.take 68).take 4 = [92, 1, 0, 0]
      rw [List.take_take]
      simpa using hm
    · intro b hbmem
      exact hb b (List.mem_of_mem_take hbmem)
    · simp only [List.length_take, List.length_drop]
      omega
    · intro b hbmem
      exact hb b (List.mem_of_mem_drop (List.mem_of_mem_take hbmem))
    · intro b hbmem
      exact hb b (List.mem_of_mem_drop hbmem)
    · refine decode16_lt _ ?_
      intro b hbmem
      exact hb b (List.mem_of_mem_drop (List.mem_of_mem_take hbmem))
  · exact absurd h (by simp)

theorem wf_setIntent (f : NiftiFile) (v : Nat) (h : WF f) :
    WF (setIntent f v) := by
  obtain ⟨h1, h2, h3, h4, h5, h6, _⟩ := h
  exact ⟨h1, h2, h3, h4, h5, h6, Nat.mod_lt _ (by norm_num)⟩

theorem parse_of_serialize (f : NiftiFile) (h : WF f) :
    parseNifti (serialize f) = some f := by
  obtain ⟨h1, h2, h3, h4, h5, h6, h7⟩ := h
  have hs1 : serialize f
      = f.headerPre
        ++ (encode16 f.intentCode ++ (f.headerPost ++ f.payload)) := by
    simp [serialize]
  have hs2 : serialize f
      = (f.headerPre ++ encode16 f.intentCode)
        ++ (f.headerPost ++ f.payload) := by
    simp [serialize]
  have hs3 : serialize f
      = ((f.headerPre ++ encode16 f.intentCode) ++ f.headerPost)
        ++ f.payload := by
    simp [serialize]
  have hlen70 : (f.headerPre ++ encode16 f.intentCode).length = 70 := by
    simp [h1, encode16_length]
  have hlen348 :
      ((f.headerPre ++ encode16 f.intentCode) ++ f.headerPost).length
        = 348 := by
    simp [h1, h4, encode16_length]
  have hlen : 348 ≤ (serialize f).length := by
    rw [hs3]
    simp only [List.length_append, hlen348]
    exact Nat.le_add_right _ _
  have hmagic : (serialize f).take 4 = [92, 1, 0, 0] := by
    rw [hs1, List.take_append_of_le_length (by omega), h2]
  have hmem : ∀ b ∈ serialize f, b < 256 := by
    intro b hb
    simp only [serialize, List.mem_append] at hb
    rcases hb with ((hb | hb) | hb) | hb
    · exact h3 b hb
    · exact encode16_lt _ b hb
    · exact h5 b hb
    · exact h6 b hb
  have hf1 : (serialize f).take 68 = f.headerPre := by
    rw [hs1]
    exact List.take_left' h1
  have hf2 : decode16 (((serialize f).drop 68).take 2) = f.intentCode := by
    rw [hs1, List.drop_left' h1, List.take_left' (encode16_length _)]
    exact decode16_encode16 _ h7
  have hf3 : ((serialize f).drop 70).take 278 = f.headerPost := by
    rw [hs2, List.drop_left' hlen70]
    exact List.take_left' h4
  have hf4 : (serialize f).drop 348 = f.payload := by
    rw [hs3]
    exact List.drop_left' hlen348
  rw [parseNifti, if_pos ⟨hlen, hmagic, hmem⟩, hf1, hf2, hf3, hf4]

theorem serialize_setIntent_eq (bs : List Nat) (f : NiftiFile)
    (h : parseNifti bs = some f) :
    serialize (setIntent f 2006) = bs.take 68 ++ [214, 7] ++ bs.drop 70 := by
  unfold parseNifti at h
  split at h
  · cases h
    simp only [serialize, setIntent]
    have he : encode16 (2006 % 65536) = [214, 7] := by decide
    have hd : (bs.drop 70).take 278 ++ bs.drop 348 = bs.drop 70 := by
      have h348 : bs.drop 348 = (bs.drop 70).drop 278 := by
        rw [List.drop_drop]
      rw [h348, List.take_append_drop]
    rw [he, List.append_assoc, hd]
  · exact absurd h (by simp)

theorem patched_drop_348 (bs : List Nat) (h : 348 ≤ bs.length) :
    (bs.take 68 ++ [214, 7] ++ bs.drop 70).drop 348 = bs.drop 348 := by
  have hlen70 : (bs.take 68 ++ [214, 7]).length = 70 := by
    simp only [List.length_append, List.length_take, List.length_cons,
      List.length_nil]
    omega
  have h348 : (bs.take 68 ++ [214, 7] ++ bs.drop 70).drop 348
      = ((bs.take 68 ++ [214, 7] ++ bs.drop 70).drop 70).drop 278 := by
    rw [List.drop_drop]
  rw [h348, List.drop_left' hlen70, List.drop_drop]

/-! ## Filesystem lemmas -/

theorem getFile_setFile_self (fs : FS) (p : String) (c : List Nat) :
    getFile (setFile fs p c) p = some c := by
  induction fs with
  | nil => simp [setFile, getFile]
  | cons hd tl ih =>
    obtain ⟨q, d⟩ := hd
    by_cases h : q = p
    · simp [setFile, getFile, h]
    · simp [setFile, getFile, h, ih]

theorem getFile_setFile_ne (fs : FS) (p q : String) (c : List Nat)
    (h : q ≠ p) : getFile (setFile fs p c) q = getFile fs q := by
  have hpq : p ≠ q := fun hh => h hh.symm
  induction fs with
  | nil => simp [setFile, getFile, hpq]
  | cons hd tl ih =>
    obtain ⟨r, d⟩ := hd
    by_cases hr : r = p
    · subst hr
      have hrq : r ≠ q := fun hh => h hh.symm
      simp [setFile, getFile, hrq]
    · simp [setFile, getFile, hr, ih]

/-! ## Argument-parsing lemmas -/

theorem scanArgs_o_eq :
    ∀ (argv : List String) (i o : Option String)
      (r : Option String × Option String),
      "-o" ∉ argv → scanArgs argv i o = some r → r.2 = o
  | [], i, o, r, _, h => by
    simp only [scanArgs, Option.some.injEq] at h
    rw [← h]
  | [a], i, o, r, _, h => by
    simp [scanArgs] at h
  | a :: v :: rest, i, o, r, hno, h => by
    have hna : a ≠ "-o" := fun he => hno (by simp [he])
    have hrest : "-o" ∉ rest := fun hm => hno (by simp [hm])
    simp only [scanArgs] at h
    by_cases hai : a = "-i"
    · rw [if_pos hai] at h
      exact scanArgs_o_eq rest (some v) o r hrest h
    · rw [if_neg hai, if_neg hna] at h
      exact absurd h (by simp)

theorem scanArgs_i_none :
    ∀ (argv : List String) (o : Option String)
      (r : Option String × Option String),
      "-i" ∉ argv → scanArgs argv none o = some r → r.1 = none
  | [], o, r, _, h => by
    simp only [scanArgs, Option.some.injEq] at h
    rw [← h]
  | [a], o, r, _, h => by
    simp [scanArgs] at h
  | a :: v :: rest, o, r, hno, h => by
    have hna : a ≠ "-i" := fun he => hno (by simp [he])
    have hrest : "-i" ∉ rest := fun hm => hno (by simp [hm])
    simp only [scanArgs] at h
    rw [if_neg hna] at h
    by_cases hao : a = "-o"
    · rw [if_pos hao] at h
      exact scanArgs_i_none rest (some v) r hrest h
    · rw [if_neg hao] at h
      exact absurd h (by simp)

theorem getArguments_o_default (argv : List String) (args : Args)
    (hno : "-o" ∉ argv) (h : getArguments argv = some args) :
    args.o = "out.nii.gz" := by
  cases hs : scanArgs argv none none with
  | none => simp [getArguments, hs] at h
  | some r =>
    obtain ⟨io, oo⟩ := r
    have ho : oo = none := scanArgs_o_eq argv none none (io, oo) hno hs
    subst ho
    cases io with
    | none => simp [getArguments, hs] at h
    | some i =>
      simp only [getArguments, hs, Option.getD, Option.some.injEq] at h
      rw [← h]

theorem getArguments_none_of_no_i (argv : List String)
    (hno : "-i" ∉ argv) : getArguments argv = none := by
  cases hs : scanArgs argv none none with
  | none => simp [getArguments, hs]
  | some r =>
    obtain ⟨io, oo⟩ := r
    have hi : io = none := scanArgs_i_none argv none (io, oo) hno hs
    subst hi
    simp [getArguments, hs]

theorem getArguments_io (i o : String) :
    getArguments ["-i", i, "-o", o] = some { i := i, o := o } := by
  simp [getArguments, scanArgs]

/-! ## Run-level helper lemmas -/

theorem run_success (w : String → Bool) (argv : List String) (fs : FS)
    (args : Args) (bs : List Nat) (img : NiftiFile)
    (hargs : getArguments argv = some args)
    (hget : getFile fs args.i = some bs)
    (hparse : parseNifti bs = some img)
    (hw : w args.o = true) :
    run w argv fs
      = (0, setFile fs args.o (serialize (setIntent img 2006))) := by
  simp [run, hargs, loadImage, hget, hparse, saveImage, hw]

theorem run_load_fail (w : String → Bool) (argv : List String) (fs : FS)
    (args : Args) (hargs : getArguments argv = some args)
    (hload : loadImage fs args.i = none) :
    run w argv fs = (1, fs) := by
  simp [run, hargs, hload]

theorem run_save_fail (w : String → Bool) (argv : List String) (fs : FS)
    (args : Args) (img : NiftiFile)
    (hargs : getArguments argv = some args)
    (hload : loadImage fs args.i = some img)
    (hw : w args.o = false) :
    run w argv fs = (1, fs) := by
  simp [run, hargs, hload, saveImage, hw]

theorem run_args_fail (w : String → Bool) (argv : List String) (fs : FS)
    (hargs : getArguments argv = none) :
    run w argv fs = (2, fs) := by
  simp [run, hargs]

/-! ## Claim theorems -/

/-- Claim C1: for every valid input volume file, regardless of the
input's original intent-code value, the file produced at the output
path has its intent-code field equal to the fixed constant 2006. -/
theorem c1_output_intent_2006 (w : String → Bool) (argv : List String)
    (fs : FS) (args : Args) (bs : List Nat) (img : NiftiFile)
    (hargs : getArguments argv = some args)
    (hget : getFile fs args.i = some bs)
    (hparse : parseNifti bs = some img)
    (hw : w args.o = true) :
    ∃ g, (getFile (run w argv fs).2 args.o).bind parseNifti = some g ∧
      g.intentCode = 2006 := by
  rw [run_success w argv fs args bs img hargs hget hparse hw]
  refine ⟨setIntent img 2006, ?_, rfl⟩
  rw [getFile_setFile_self]
  show parseNifti (serialize (setIntent img 2006)) = some (setIntent img 2006)
  exact parse_of_serialize _ (wf_setIntent img 2006 (parseNifti_wf bs img hparse))

/-- Claim C2: for every valid input volume file, the output file is
byte-identical to the input except for the two bytes of the
intent-code field (offsets 68 and 69, now holding 2006 little-endian),
and in particular the voxel data payload (bytes from offset 348) is
bit-identical to the input's. -/
theorem c2_output_byte_identical (w : String → Bool) (argv : List String)
    (fs : FS) (args : Args) (bs : List Nat) (img : NiftiFile)
    (hargs : getArguments argv = some args)
    (hget : getFile fs args.i = some bs)
    (hparse : parseNifti bs = some img)
    (hw : w args.o = true) :
    getFile (run w argv fs).2 args.o
      = some (bs.take 68 ++ [214, 7] ++ bs.drop 70) ∧
    (bs.take 68 ++ [214, 7] ++ bs.drop 70).drop 348 = bs.drop 348 := by
  constructor
  · rw [run_success w argv fs args bs img hargs hget hparse hw,
      getFile_setFile_self, serialize_setIntent_eq bs img hparse]
  · exact patched_drop_348 bs (parseNifti_length bs img hparse)

/-- Claim C3: for every invocation whose input path does not name an
existing readable valid volume file, the tool exits with a non-zero
exit code and the filesystem is unchanged (no output file created). -/
theorem c3_invalid_input_fails (w : String → Bool) (argv : List String)
    (fs : FS) (args : Args)
    (hargs : getArguments argv = some args)
    (hload : loadImage fs args.i = none) :
    (run w argv fs).1 ≠ 0 ∧ (run w argv fs).2 = fs := by
  rw [run_load_fail w argv fs args hargs hload]
  exact ⟨by simp, rfl⟩

/-- Claim C4: for every invocation with a valid input file and an
output path that is not writable, the tool exits with a non-zero exit
code. -/
theorem c4_unwritable_output_fails (w : String → Bool) (argv : List String)
    (fs : FS) (args : Args) (img : NiftiFile)
    (hargs : getArguments argv = some args)
    (hload : loadImage fs args.i = some img)
    (hw : w args.o = false) :
    (run w argv fs).1 ≠ 0 := by
  rw [run_save_fail w argv fs args img hargs hload hw]
  simp

/-- Claim C5: running the tool on its own output is idempotent: the
second run succeeds and writes a file identical to the first run's
output (the intent code is already 2006 and stays so). -/
theorem c5_idempotent (w : String → Bool) (fs : FS) (i o o2 : String)
    (bs : List Nat) (img : NiftiFile)
    (hget : getFile fs i = some bs)
    (hparse : parseNifti bs = some img)
    (hw : w o = true) (hw2 : w o2 = true) :
    (run w ["-i", i, "-o", o] fs).1 = 0 ∧
    (run w ["-i", o, "-o", o2] (run w ["-i", i, "-o", o] fs).2).1 = 0 ∧
    getFile (run w ["-i", o, "-o", o2] (run w ["-i", i, "-o", o] fs).2).2 o2
      = getFile (run w ["-i", i, "-o", o] fs).2 o := by
  have hrun1 := run_success w ["-i", i, "-o", o] fs { i := i, o := o }
    bs img (getArguments_io i o) hget hparse hw
  have h2get : getFile (setFile fs o (serialize (setIntent img 2006))) o
      = some (serialize (setIntent img 2006)) := getFile_setFile_self _ _ _
  have hparse2 : parseNifti (serialize (setIntent img 2006))
      = some (setIntent img 2006) :=
    parse_of_serialize _ (wf_setIntent img 2006 (parseNifti_wf bs img hparse))
  have hrun2 := run_success w ["-i", o, "-o", o2]
    (setFile fs o (serialize (setIntent img 2006)))
    { i := o, o := o2 } (serialize (setIntent img 2006)) (setIntent img 2006)
    (getArguments_io o o2) h2get hparse2 hw2
  refine ⟨?_, ?_, ?_⟩
  · rw [hrun1]
  · simp only [hrun1, hrun2]
  · simp only [hrun1, hrun2]
    rw [getFile_setFile_self, h2get]
    rfl

/-- Claim C6: for every invocation in which the o option is not
supplied, a successful argument parse yields exactly the default
output path out.nii.gz. -/
theorem c6_default_output (argv : List String) (args : Args)
    (hno : "-o" ∉ argv) (hargs : getArguments argv = some args) :
    args.o = "out.nii.gz" :=
  getArguments_o_default argv args hno hargs

/-- Claim C7: the i option is required: every invocation without it
fails at argument parsing with a non-zero exit code, and the
filesystem is untouched (no file written). -/
theorem c7_missing_input_arg_fails (w : String → Bool) (argv : List String)
    (fs : FS) (hno : "-i" ∉ argv) :
    (run w argv fs).1 ≠ 0 ∧ (run w argv fs).2 = fs := by
  rw [run_args_fail w argv fs (getArguments_none_of_no_i argv hno)]
  exact ⟨by simp, rfl⟩

/-- Claim C8: for every invocation, the only filesystem effect is on
the output path: every path other than the parsed output path maps to
the same contents after the run as before (in particular the input
file is unchanged when the two paths differ). -/
theorem c8_only_output_touched (w : String → Bool) (argv : List String)
    (fs : FS) (p : String)
    (hp : ∀ args, getArguments argv = some args → p ≠ args.o) :
    getFile (run w argv fs).2 p = getFile fs p := by
  cases hargs : getArguments argv with
  | none => rw [run_args_fail w argv fs hargs]
  | some args =>
    cases hload : loadImage fs args.i with
    | none => rw [run_load_fail w argv fs args hargs hload]
    | some img =>
      cases hw : w args.o with
      | false => rw [run_save_fail w argv fs args img hargs hload hw]
      | true =>
        obtain ⟨bs, hget, hparse⟩ := Option.bind_eq_some.mp hload
        rw [run_success w argv fs args bs img hargs hget hparse hw]
        exact getFile_setFile_ne fs args.o p _ (hp args hargs)

/-- Claim C9: the tool is deterministic: two runs given the same
argument list, the same input-file contents and the same output-path
writability produce the same exit code, and on success the same
output-file contents. -/
theorem c9_deterministic (w1 w2 : String → Bool) (argv : List String)
    (fs1 fs2 : FS) (args : Args)
    (hargs : getArguments argv = some args)
    (hin : getFile fs1 args.i = getFile fs2 args.i)
    (hw : w1 args.o = w2 args.o) :
    (run w1 argv fs1).1 = (run w2 argv fs2).1 ∧
    ((run w1 argv fs1).1 = 0 →
      getFile (run w1 argv fs1).2 args.o
        = getFile (run w2 argv fs2).2 args.o) := by
  have hload : loadImage fs1 args.i = loadImage fs2 args.i := by
    unfold loadImage
    rw [hin]
  cases hl : loadImage fs2 args.i with
  | none =>
    rw [run_load_fail w1 argv fs1 args hargs (hload.trans hl),
      run_load_fail w2 argv fs2 args hargs hl]
    exact ⟨rfl, by simp⟩
  | some img =>
    obtain ⟨bs, hget2, hparse⟩ := Option.bind_eq_some.mp hl
    have hget1 : getFile fs1 args.i = some bs := hin.trans hget2
    cases hw2 : w2 args.o with
    | false =>
      rw [run_save_fail w1 argv fs1 args img hargs (hload.trans hl)
          (hw.trans hw2),
        run_save_fail w2 argv fs2 args img hargs hl hw2]
      exact ⟨rfl, by simp⟩
    | true =>
      rw [run_success w1 argv fs1 args bs img hargs hget1 hparse
          (hw.trans hw2),
        run_success w2 argv fs2 args bs img hargs hget2 hparse hw2]
      refine ⟨rfl, fun _ => ?_⟩
      rw [getFile_setFile_self, getFile_setFile_self]

/-- Claim C10: when the output path equals the input path, the tool
succeeds and overwrites the input file in place with the patched
bytes: intent code 2006 at offsets 68-69, everything else (in
particular the data payload from offset 348) unchanged. -/
theorem c10_in_place_overwrite (w : String → Bool) (fs : FS) (p : String)
    (bs : List Nat) (img : NiftiFile)
    (hget : getFile fs p = some bs)
    (hparse : parseNifti bs = some img)
    (hw : w p = true) :
    (run w ["-i", p, "-o", p] fs).1 = 0 ∧
    getFile (run w ["-i", p, "-o", p] fs).2 p
      = some (bs.take 68 ++ [214, 7] ++ bs.drop 70) ∧
    (bs.take 68 ++ [214, 7] ++ bs.drop 70).drop 348 = bs.drop 348 := by
  have hrun := run_success w ["-i", p, "-o", p] fs { i := p, o := p }
    bs img (getArguments_io p p) hget hparse hw
  simp only [hrun]
  refine ⟨trivial, ?_, patched_drop_348 bs (parseNifti_length bs img hparse)⟩
  rw [getFile_setFile_self, serialize_setIntent_eq bs img hparse]

/-! ## Concrete witness data -/

/-- A concrete 351-byte valid NIfTI file used by the witnesses:
header-size magic `[92, 1, 0, 0]`, filler header bytes, intent code 5
at offsets 68-69, and a 3-byte voxel payload. -/
def sampleBytes : List Nat :=
  [92, 1, 0, 0] ++ List.replicate 64 9 ++ [5, 0] ++ List.replicate 278 3
    ++ [10, 20, 30]

/-- The image obtained by parsing `sampleBytes`. -/
def sampleImg : NiftiFile :=
  { headerPre := [92, 1, 0, 0] ++ List.replicate 64 9
    intentCode := 5
    headerPost := List.replicate 278 3
    payload := [10, 20, 30] }

/-- Witness for C1 at a concrete run. -/
theorem c1_output_intent_2006_witness :
    ∃ g, (getFile (run (fun _ => true)
          ["-i", "subject01_warp.nii.gz", "-o", "fixed.nii.gz"]
          [("subject01_warp.nii.gz", sampleBytes)]).2 "fixed.nii.gz").bind
        parseNifti = some g ∧ g.intentCode = 2006 :=
  c1_output_intent_2006 (fun _ => true)
    ["-i", "subject01_warp.nii.gz", "-o", "fixed.nii.gz"]
    [("subject01_warp.nii.gz", sampleBytes)]
    { i := "subject01_warp.nii.gz", o := "fixed.nii.gz" }
    sampleBytes sampleImg (by decide) (by decide) (by decide) rfl

/-- Witness for C2 at a concrete run. -/
theorem c2_output_byte_identical_witness :
    getFile (run (fun _ => true) ["-i", "in.nii.gz", "-o", "out2.nii.gz"]
        [("in.nii.gz", sampleBytes)]).2 "out2.nii.gz"
      = some (sampleBytes.take 68 ++ [214, 7] ++ sampleBytes.drop 70) ∧
    (sampleBytes.take 68 ++ [214, 7] ++ sampleBytes.drop 70).drop 348
      = sampleBytes.drop 348 :=
  c2_output_byte_identical (fun _ => true)
    ["-i", "in.nii.gz", "-o", "out2.nii.gz"] [("in.nii.gz", sampleBytes)]
    { i := "in.nii.gz", o := "out2.nii.gz" }
    sampleBytes sampleImg (by decide) (by decide) (by decide) rfl

/-- Witness for C3 at a concrete run with a missing input file. -/
theorem c3_invalid_input_fails_witness :
    (run (fun _ => true) ["-i", "missing.nii.gz", "-o", "out.nii.gz"] []).1
      ≠ 0 ∧
    (run (fun _ => true) ["-i", "missing.nii.gz", "-o", "out.nii.gz"] []).2
      = [] :=
  c3_invalid_input_fails (fun _ => true)
    ["-i", "missing.nii.gz", "-o", "out.nii.gz"] []
    { i := "missing.nii.gz", o := "out.nii.gz" } (by decide) rfl

/-- Witness for C4 at a concrete run with an unwritable output path. -/
theorem c4_unwritable_output_fails_witness :
    (run (fun _ => false) ["-i", "in.nii.gz", "-o", "ro/out.nii.gz"]
        [("in.nii.gz", sampleBytes)]).1 ≠ 0 :=
  c4_unwritable_output_fails (fun _ => false)
    ["-i", "in.nii.gz", "-o", "ro/out.nii.gz"] [("in.nii.gz", sampleBytes)]
    { i := "in.nii.gz", o := "ro/out.nii.gz" } sampleImg
    (by decide) (by decide) rfl

/-- Witness for C5 at a concrete pair of runs. -/
theorem c5_idempotent_witness :
    (run (fun _ => true) ["-i", "in.nii.gz", "-o", "first.nii.gz"]
        [("in.nii.gz", sampleBytes)]).1 = 0 ∧
    (run (fun _ => true) ["-i", "first.nii.gz", "-o", "second.nii.gz"]
        (run (fun _ => true) ["-i", "in.nii.gz", "-o", "first.nii.gz"]
          [("in.nii.gz", sampleBytes)]).2).1 = 0 ∧
    getFile (run (fun _ => true) ["-i", "first.nii.gz", "-o", "second.nii.gz"]
        (run (fun _ => true) ["-i", "in.nii.gz", "-o", "first.nii.gz"]
          [("in.nii.gz", sampleBytes)]).2).2 "second.nii.gz"
      = getFile (run (fun _ => true) ["-i", "in.nii.gz", "-o", "first.nii.gz"]
          [("in.nii.gz", sampleBytes)]).2 "first.nii.gz" :=
  c5_idempotent (fun _ => true) [("in.nii.gz", sampleBytes)] "in.nii.gz"
    "first.nii.gz" "second.nii.gz" sampleBytes sampleImg
    (by decide) (by decide) rfl rfl

/-- Witness for C6 at a concrete invocation without the o option. -/
theorem c6_default_output_witness :
    (Args.mk "in.nii.gz" "out.nii.gz").o = "out.nii.gz" :=
  c6_default_output ["-i", "in.nii.gz"] (Args.mk "in.nii.gz" "out.nii.gz")
    (by decide) (by decide)

/-- Witness for C7 at a concrete invocation without the i option. -/
theorem c7_missing_input_arg_fails_witness :
    (run (fun _ => true) ["-o", "out.nii.gz"]
        [("in.nii.gz", sampleBytes)]).1 ≠ 0 ∧
    (run (fun _ => true) ["-o", "out.nii.gz"]
        [("in.nii.gz", sampleBytes)]).2 = [("in.nii.gz", sampleBytes)] :=
  c7_missing_input_arg_fails (fun _ => true) ["-o", "out.nii.gz"]
    [("in.nii.gz", sampleBytes)] (by decide)

/-- Witness for C8 at a concrete run: the input file is untouched. -/
theorem c8_only_output_touched_witness :
    getFile (run (fun _ => true) ["-i", "in.nii.gz", "-o", "out2.nii.gz"]
        [("in.nii.gz", sampleBytes)]).2 "in.nii.gz"
      = getFile [("in.nii.gz", sampleBytes)] "in.nii.gz" :=
  c8_only_output_touched (fun _ => true)
    ["-i", "in.nii.gz", "-o", "out2.nii.gz"] [("in.nii.gz", sampleBytes)]
    "in.nii.gz"
    (fun args hargs => by
      have h2 : getArguments ["-i", "in.nii.gz", "-o", "out2.nii.gz"]
          = some { i := "in.nii.gz", o := "out2.nii.gz" } := by decide
      rw [h2, Option.some.injEq] at hargs
      rw [← hargs]
      decide)

/-- Witness for C9 at two concrete runs over different filesystems
agreeing on the input file. -/
theorem c9_deterministic_witness :
    (run (fun _ => true) ["-i", "in.nii.gz", "-o", "out.nii.gz"]
        [("in.nii.gz", sampleBytes), ("noise.txt", [1])]).1
      = (run (fun _ => true) ["-i", "in.nii.gz", "-o", "out.nii.gz"]
          [("in.nii.gz", sampleBytes)]).1 ∧
    ((run (fun _ => true) ["-i", "in.nii.gz", "-o", "out.nii.gz"]
        [("in.nii.gz", sampleBytes), ("noise.txt", [1])]).1 = 0 →
      getFile (run (fun _ => true) ["-i", "in.nii.gz", "-o", "out.nii.gz"]
          [("in.nii.gz", sampleBytes), ("noise.txt", [1])]).2 "out.nii.gz"
        = getFile (run (fun _ => true) ["-i", "in.nii.gz", "-o", "out.nii.gz"]
            [("in.nii.gz", sampleBytes)]).2 "out.nii.gz") :=
  c9_deterministic (fun _ => true) (fun _ => true)
    ["-i", "in.nii.gz", "-o", "out.nii.gz"]
    [("in.nii.gz", sampleBytes), ("noise.txt", [1])]
    [("in.nii.gz", sampleBytes)]
    { i := "in.nii.gz", o := "out.nii.gz" }
    (by decide) (by decide) rfl

/-- Witness for C10 at a concrete in-place run. -/
theorem c10_in_place_overwrite_witness :
    (run (fun _ => true) ["-i", "inout.nii.gz", "-o", "inout.nii.gz"]
        [("inout.nii.gz", sampleBytes)]).1 = 0 ∧
    getFile (run (fun _ => true) ["-i", "inout.nii.gz", "-o", "inout.nii.gz"]
        [("inout.nii.gz", sampleBytes)]).2 "inout.nii.gz"
      = some (sampleBytes.take 68 ++ [214, 7] ++ sampleBytes.drop 70) ∧
    (sampleBytes.take 68 ++ [214, 7] ++ sampleBytes.drop 70).drop 348
      = sampleBytes.drop 348 :=
  c10_in_place_overwrite (fun _ => true) [("inout.nii.gz", sampleBytes)]
    "inout.nii.gz" sampleBytes sampleImg (by decide) (by decide) rfl
